import Mathlib

/-!
Verification of the MiniFarm AI edge node (minifarm_ai_main.py) against its
natural-language specification.  The Python source is shallowly embedded:
pure helpers become Lean functions on `String` / `List Char`; HTTP and
filesystem effects are modelled by explicit oracle parameters; the streaming
buffer is modelled as a small-step transition relation.  Python strings are
modelled as `String` (lists of characters); `str.lower` is modelled on the
ASCII range, which is the range exercised by every label the detector emits.
-/

namespace MiniFarm

/-! ## String primitives (models of Python `in`, `str.lower`, `str.replace`) -/

/-- Model of Python prefix test used by substring search: `startsChars l p`
is true iff `p` is an initial segment of `l`. -/
def startsChars : List Char → List Char → Bool
  | _, [] => true
  | [], _ :: _ => false
  | a :: as, b :: bs => a == b && startsChars as bs

/-- Model of Python `p in s` on character lists: true iff `p` occurs as a
contiguous substring of `l`. -/
def containsChars : List Char → List Char → Bool
  | [], p => p.isEmpty
  | a :: as, p => startsChars (a :: as) p || containsChars as p

/-- Model of Python `p in s` on strings. -/
def strContains (s p : String) : Bool :=
  containsChars s.data p.data

/-- Model of Python `str.lower` (ASCII range, via `Char.toLower`). -/
def lowerStr (s : String) : String :=
  String.mk (s.data.map Char.toLower)

/-! ## `MiniFarmAI.extract_species_from_label` (source lines 262-269) -/

/-- Embedding of `MiniFarmAI.extract_species_from_label`: lowercase the label,
return "basil" if it contains "basil" or "bail", else "poinsettia" if it
contains "poin", else "unknown". -/
def extract_species_from_label (label : String) : String :=
  let label_lower := lowerStr label
  if strContains label_lower "basil" || strContains label_lower "bail" then "basil"
  else if strContains label_lower "poin" then "poinsettia"
  else "unknown"

/-! ## Typo correction in `MiniFarmAI.detect` (source lines 303-305) -/

/-- The misspelled pattern replaced by the detector. -/
def typoPat : List Char := "poinsenttia".data

/-- The canonical replacement text. -/
def typoRep : List Char := "poinsettia".data

/-- Model of Python `l.replace("poinsenttia", "poinsettia")` on character
lists: leftmost-first, non-overlapping replacement of every occurrence. -/
def replaceChars (l : List Char) : List Char :=
  match l with
  | [] => []
  | a :: as =>
    if startsChars (a :: as) typoPat then typoRep ++ replaceChars (as.drop 10)
    else a :: replaceChars as
termination_by l.length
decreasing_by
  all_goals simp [List.length_drop]
  omega

/-- Embedding of the typo-fix step of `MiniFarmAI.detect`:
`if "poinsenttia" in health_label: health_label = health_label.replace("poinsenttia", "poinsettia")`. -/
def fixLabel (label : String) : String :=
  if strContains label "poinsenttia" then String.mk (replaceChars label.data)
  else label

/-! ## Idempotence of the typo correction (claim C6) -/

/-- Prepending the replacement text cannot create an occurrence of the
pattern: the pattern deviates from the replacement at index 6 and the
character 'p' occurs in the replacement only at index 0. -/
theorem contains_typoRep_append (X : List Char) :
    containsChars (typoRep ++ X) typoPat = containsChars X typoPat := rfl

/-- Replacement cannot create a match of a pattern avoiding 'p' at the start
of the text: the replacement text starts with 'p'. -/
theorem startsChars_replaceChars (l : List Char) : ∀ q : List Char, 'p' ∉ q →
    startsChars l q = false → startsChars (replaceChars l) q = false := by
  induction l with
  | nil => intro q _ h2; simpa [replaceChars] using h2
  | cons a as ih =>
    intro q hq h2
    match q with
    | [] => simp [startsChars] at h2
    | c :: q' =>
      have hc : c ≠ 'p' := fun h => hq (h ▸ List.mem_cons_self c q')
      have hq' : 'p' ∉ q' := fun h => hq (List.mem_cons_of_mem c h)
      rw [replaceChars]
      by_cases hs : startsChars (a :: as) typoPat = true
      · simp only [hs, if_true]
        have : typoRep ++ replaceChars (as.drop 10) =
            'p' :: ("oinsettia".data ++ replaceChars (as.drop 10)) := rfl
        rw [this]
        simp only [startsChars]
        simp [Ne.symm hc]
      · simp only [hs, if_false, Bool.not_eq_true] at *
        simp only [startsChars] at h2 ⊢
        rcases Bool.and_eq_false_iff.mp h2 with hac | has
        · simp [hac]
        · simp [ih q' hq' has]

/-- The result of the replacement contains no occurrence of the pattern. -/
theorem contains_replaceChars (l : List Char) :
    containsChars (replaceChars l) typoPat = false := by
  induction l using replaceChars.induct with
  | case1 => simp [replaceChars]; rfl
  | case2 a as hs ih =>
    rw [replaceChars]
    simp only [hs, if_true]
    rw [contains_typoRep_append]
    exact ih
  | case3 a as hs ih =>
    have hs' : startsChars (a :: as) typoPat = false := by simpa using hs
    rw [replaceChars, if_neg (by simp [hs'])]
    simp only [containsChars, Bool.or_eq_false_iff]
    refine ⟨?_, ih⟩
    have hpat : typoPat = 'p' :: "oinsenttia".data := rfl
    rw [hpat] at hs' ⊢
    simp only [startsChars] at hs' ⊢
    rcases Bool.and_eq_false_iff.mp hs' with hap | has
    · simp [hap]
    · simp [startsChars_replaceChars as "oinsenttia".data (by decide) has]

/-- Replacement is the identity on strings not containing the pattern. -/
theorem replaceChars_of_not_contains (l : List Char)
    (h : containsChars l typoPat = false) : replaceChars l = l := by
  induction l with
  | nil => simp [replaceChars]
  | cons a as ih =>
    rw [containsChars, Bool.or_eq_false_iff] at h
    rw [replaceChars]
    simp [h.1, ih h.2]

/-- C6: the label-correction step of `MiniFarmAI.detect` (replacing every
occurrence of the misspelling "poinsenttia" with "poinsettia") is
idempotent: for every string x, correct(correct(x)) = correct(x). -/
theorem fixLabel_idempotent (x : String) : fixLabel (fixLabel x) = fixLabel x := by
  by_cases h : strContains x "poinsenttia" = true
  · simp only [fixLabel, h, if_true]
    have hc : strContains (String.mk (replaceChars x.data)) "poinsenttia" = false := by
      show containsChars (replaceChars x.data) typoPat = false
      exact contains_replaceChars x.data
    simp [hc]
  · simp only [fixLabel, Bool.not_eq_true] at *
    simp [h]

/-! ## Basil precedence in species extraction (claim C9) -/

/-- C9: species keyword matching gives basil precedence: every label whose
lowercased form contains a basil keyword ("basil" or "bail") together with
the poinsettia keyword "poin" maps to "basil", and the "poinsettia" result
is reached only when no basil keyword is present (and "poin" is). -/
theorem extract_basil_precedence :
    (∀ label : String,
        (strContains (lowerStr label) "basil" || strContains (lowerStr label) "bail") = true →
        strContains (lowerStr label) "poin" = true →
        extract_species_from_label label = "basil") ∧
    (∀ label : String, extract_species_from_label label = "poinsettia" →
        (strContains (lowerStr label) "basil" || strContains (lowerStr label) "bail") = false ∧
        strContains (lowerStr label) "poin" = true) := by
  constructor
  · intro label hb _
    simp [extract_species_from_label, hb]
  · intro label h
    by_cases hb : (strContains (lowerStr label) "basil" || strContains (lowerStr label) "bail") = true
    · simp [extract_species_from_label, hb] at h
    · by_cases hp : strContains (lowerStr label) "poin" = true
      · exact ⟨by simpa using hb, hp⟩
      · simp [extract_species_from_label, hb, hp] at h

/-- Witness for C9 at the concrete label "basil_poin". -/
theorem extract_basil_precedence_witness :
    (strContains (lowerStr "basil_poin") "basil" || strContains (lowerStr "basil_poin") "bail") = true ∧
    strContains (lowerStr "basil_poin") "poin" = true ∧
    extract_species_from_label "basil_poin" = "basil" :=
  ⟨by decide, by decide, extract_basil_precedence.1 "basil_poin" (by decide) (by decide)⟩

/-! ## Species aggregation in `MiniFarmAI.detect` (source lines 310-317, claim C5)

The detection loop adds `extract_species_from_label(health_label)` to
`unique_species_set` whenever the result is not "unknown"; the Python `set`
is modelled as a duplicate-free list built by the loop's fold.  The final
map is `{str(idx): species for idx, species in enumerate(sorted(...))}`. -/

/-- Model of Python string comparison, lexicographic by code point. -/
def charListLe : List Char → List Char → Bool
  | [], _ => true
  | _ :: _, [] => false
  | a :: as, b :: bs =>
    if a < b then true else if b < a then false else charListLe as bs

/-- Totality of the code-point order. -/
theorem charListLe_total : ∀ l1 l2 : List Char,
    charListLe l1 l2 = true ∨ charListLe l2 l1 = true := by
  intro l1
  induction l1 with
  | nil => intro l2; left; rfl
  | cons a as ih =>
    intro l2
    match l2 with
    | [] => right; rfl
    | b :: bs =>
      rcases lt_trichotomy a b with h | h | h
      · left; simp [charListLe, h]
      · subst h
        rcases ih bs with h2 | h2
        · left; simp [charListLe, lt_irrefl, h2]
        · right; simp [charListLe, lt_irrefl, h2]
      · right; simp [charListLe, h]

/-- Transitivity of the code-point order. -/
theorem charListLe_trans : ∀ l1 l2 l3 : List Char, charListLe l1 l2 = true →
    charListLe l2 l3 = true → charListLe l1 l3 = true := by
  intro l1
  induction l1 with
  | nil => intros; rfl
  | cons a as ih =>
    intro l2 l3 h12 h23
    match l2, l3 with
    | [], _ => simp [charListLe] at h12
    | _ :: _, [] => simp [charListLe] at h23
    | b :: bs, c :: cs =>
      by_cases hab : a < b
      · by_cases hbc : b < c
        · simp [charListLe, lt_trans hab hbc]
        · by_cases hcb : c < b
          · simp [charListLe, hbc, hcb] at h23
          · have hbceq : b = c := le_antisymm (le_of_not_lt hcb) (le_of_not_lt hbc)
            subst hbceq
            simp [charListLe, hab]
      · by_cases hba : b < a
        · simp [charListLe, hab, hba] at h12
        · have habeq : a = b := le_antisymm (le_of_not_lt hba) (le_of_not_lt hab)
          subst habeq
          simp only [charListLe, lt_irrefl, if_false] at h12
          by_cases hac : a < c
          · simp [charListLe, hac]
          · by_cases hca : c < a
            · simp [charListLe, hac, hca] at h23
            · have haceq : a = c := le_antisymm (le_of_not_lt hca) (le_of_not_lt hac)
              subst haceq
              simp only [charListLe, lt_irrefl, if_false] at h23 ⊢
              exact ih bs cs h12 h23

/-- Antisymmetry of the code-point order. -/
theorem charListLe_antisymm : ∀ l1 l2 : List Char, charListLe l1 l2 = true →
    charListLe l2 l1 = true → l1 = l2 := by
  intro l1
  induction l1 with
  | nil =>
    intro l2 _ h21
    match l2 with
    | [] => rfl
    | b :: bs => simp [charListLe] at h21
  | cons a as ih =>
    intro l2 h12 h21
    match l2 with
    | [] => simp [charListLe] at h12
    | b :: bs =>
      by_cases hab : a < b
      · simp [charListLe, hab, lt_asymm hab] at h21
      · by_cases hba : b < a
        · simp [charListLe, hab, hba] at h12
        · have habeq : a = b := le_antisymm (le_of_not_lt hba) (le_of_not_lt hab)
          subst habeq
          simp only [charListLe, lt_irrefl, if_false] at h12 h21
          rw [ih bs h12 h21]

/-- The sorting relation used to model Python `sorted` on strings. -/
def strLeR (a b : String) : Prop := charListLe a.data b.data = true

instance : DecidableRel strLeR := fun _ _ => instDecidableEqBool _ _

instance : IsTotal String strLeR := ⟨fun a b => charListLe_total a.data b.data⟩

instance : IsTrans String strLeR := ⟨fun a b c => charListLe_trans a.data b.data c.data⟩

instance : IsAntisymm String strLeR :=
  ⟨fun a b h1 h2 => by
    have hd := charListLe_antisymm a.data b.data h1 h2
    cases a; cases b; exact congrArg String.mk hd⟩

/-- One iteration of the species-collection loop body. -/
def speciesFold (acc : List String) (lab : String) : List String :=
  let species := extract_species_from_label lab
  if species = "unknown" then acc
  else if species ∈ acc then acc
  else acc ++ [species]

/-- The `unique_species_set` built by the detection loop. -/
def buildSpeciesSet (labels : List String) : List String :=
  labels.foldl speciesFold []

/-- Embedding of the `species_data` dict comprehension: sort the set
lexicographically and key each species by its ordinal index. -/
def species_data (labels : List String) : List (String × String) :=
  (List.insertionSort strLeR (buildSpeciesSet labels)).enum.map
    (fun p => (toString p.1, p.2))

/-- Membership in the species-collection fold. -/
theorem mem_speciesFoldl (labels : List String) : ∀ (acc : List String) (x : String),
    x ∈ labels.foldl speciesFold acc ↔
      x ∈ acc ∨ (x ≠ "unknown" ∧ ∃ lab ∈ labels, extract_species_from_label lab = x) := by
  induction labels with
  | nil => intro acc x; simp
  | cons l ls ih =>
    intro acc x
    rw [List.foldl_cons, ih]
    unfold speciesFold
    by_cases h1 : extract_species_from_label l = "unknown"
    · rw [if_pos h1]
      constructor
      · rintro (hx | ⟨hxu, lab, hlab, hex⟩)
        · exact Or.inl hx
        · exact Or.inr ⟨hxu, lab, List.mem_cons_of_mem _ hlab, hex⟩
      · rintro (hx | ⟨hxu, lab, hlab, hex⟩)
        · exact Or.inl hx
        · rcases List.mem_cons.mp hlab with rfl | hmem
          · exact absurd (hex.symm.trans h1) hxu
          · exact Or.inr ⟨hxu, lab, hmem, hex⟩
    · rw [if_neg h1]
      by_cases h2 : extract_species_from_label l ∈ acc
      · rw [if_pos h2]
        constructor
        · rintro (hx | ⟨hxu, lab, hlab, hex⟩)
          · exact Or.inl hx
          · exact Or.inr ⟨hxu, lab, List.mem_cons_of_mem _ hlab, hex⟩
        · rintro (hx | ⟨hxu, lab, hlab, hex⟩)
          · exact Or.inl hx
          · rcases List.mem_cons.mp hlab with rfl | hmem
            · exact Or.inl (hex ▸ h2)
            · exact Or.inr ⟨hxu, lab, hmem, hex⟩
      · rw [if_neg h2]
        constructor
        · rintro (hx | ⟨hxu, lab, hlab, hex⟩)
          · rcases List.mem_append.mp hx with hx' | hx'
            · exact Or.inl hx'
            · have hxe : x = extract_species_from_label l := List.mem_singleton.mp hx'
              exact Or.inr ⟨hxe ▸ h1, l, List.mem_cons_self l ls, hxe.symm⟩
          · exact Or.inr ⟨hxu, lab, List.mem_cons_of_mem _ hlab, hex⟩
        · rintro (hx | ⟨hxu, lab, hlab, hex⟩)
          · exact Or.inl (List.mem_append.mpr (Or.inl hx))
          · rcases List.mem_cons.mp hlab with rfl | hmem
            · exact Or.inl (List.mem_append.mpr (Or.inr (List.mem_singleton.mpr hex.symm)))
            · exact Or.inr ⟨hxu, lab, hmem, hex⟩

/-- The species-collection fold preserves freedom from duplicates. -/
theorem nodup_speciesFoldl (labels : List String) : ∀ acc : List String, acc.Nodup →
    (labels.foldl speciesFold acc).Nodup := by
  induction labels with
  | nil => intro acc h; simpa using h
  | cons l ls ih =>
    intro acc h
    rw [List.foldl_cons]
    apply ih
    simp only [speciesFold]
    split_ifs with h1 h2
    · exact h
    · exact h
    · simp [List.nodup_append, h, h2]

/-- The species set is permutation-invariant. -/
theorem buildSpeciesSet_perm (l1 l2 : List String) (h : l1.Perm l2) :
    (buildSpeciesSet l1).Perm (buildSpeciesSet l2) := by
  apply (List.perm_ext_iff_of_nodup (nodup_speciesFoldl l1 [] List.nodup_nil)
    (nodup_speciesFoldl l2 [] List.nodup_nil)).mpr
  intro a
  rw [mem_speciesFoldl, mem_speciesFoldl]
  simp only [List.not_mem_nil, false_or]
  constructor
  · rintro ⟨hu, lab, hm, he⟩; exact ⟨hu, lab, h.mem_iff.mp hm, he⟩
  · rintro ⟨hu, lab, hm, he⟩; exact ⟨hu, lab, h.mem_iff.mpr hm, he⟩

/-- Permutation invariance of the final species map. -/
theorem species_data_perm (l1 l2 : List String) (h : l1.Perm l2) :
    species_data l1 = species_data l2 := by
  unfold species_data
  have hp : List.insertionSort strLeR (buildSpeciesSet l1) =
      List.insertionSort strLeR (buildSpeciesSet l2) :=
    List.eq_of_perm_of_sorted
      ((List.perm_insertionSort strLeR _).trans
        ((buildSpeciesSet_perm l1 l2 h).trans (List.perm_insertionSort strLeR _).symm))
      (List.sorted_insertionSort strLeR _) (List.sorted_insertionSort strLeR _)
  rw [hp]

/-- Unmatched labels are excluded: "unknown" is never a value of the map. -/
theorem species_data_no_unknown (labels : List String) :
    "unknown" ∉ (species_data labels).map Prod.snd := by
  unfold species_data
  intro hmem
  rw [List.map_map] at hmem
  have hcomp : (Prod.snd ∘ fun p : Nat × String => (toString p.1, p.2)) = Prod.snd := rfl
  rw [hcomp, List.enum_map_snd] at hmem
  rw [List.mem_insertionSort] at hmem
  unfold buildSpeciesSet at hmem
  rw [mem_speciesFoldl] at hmem
  rcases hmem with h | ⟨hu, _⟩
  · simp at h
  · exact hu rfl

/-- C5: the species map is computed by case-insensitive keyword matching with
unmatched labels excluded, deduplicated via a set, sorted lexicographically
and indexed by ordinals; it is invariant under reordering of the detection
labels, and on labels ["basil_healthy", "BASIL_unhealthy", "poin_healthy"]
it yields the map 0 -> "basil", 1 -> "poinsettia". -/
theorem species_map_correct :
    (∀ l1 l2 : List String, l1.Perm l2 → species_data l1 = species_data l2) ∧
    (∀ labels : List String, "unknown" ∉ (species_data labels).map Prod.snd) ∧
    species_data ["basil_healthy", "BASIL_unhealthy", "poin_healthy"] =
      [("0", "basil"), ("1", "poinsettia")] :=
  ⟨species_data_perm, species_data_no_unknown, by decide⟩

/-- Witness for C5: the permutation hypothesis discharged on a concrete
reordering of the example labels. -/
theorem species_map_correct_witness :
    (["poin_healthy", "basil_healthy"] : List String).Perm ["basil_healthy", "poin_healthy"] ∧
    species_data ["poin_healthy", "basil_healthy"] = species_data ["basil_healthy", "poin_healthy"] :=
  ⟨by decide, species_map_correct.1 _ _ (by decide)⟩

/-! ## Scheduler (`MiniFarmAI.run`, source lines 414-431, claim C4)

The loop keeps `self.last_detection_hour : int` (initialised to -1, the
"none" sentinel).  On each poll tick with current hour `h`: if `h` is in
`TARGET_HOURS` and differs from the stored hour, one detection cycle runs
and the stored hour becomes `h`; otherwise, if `h` differs from the stored
hour, the stored hour is reset to -1; otherwise it is left unchanged. -/

/-- Embedding of `TARGET_HOURS = list(range(24))`. -/
def TARGET_HOURS : List Nat := List.range 24

/-- One poll tick of the scheduler loop body: from `last_detection_hour` and
the current hour, the new `last_detection_hour` and whether a detection
cycle ran on this tick. -/
def schedStep (last : Int) (current_hour : Nat) : Int × Bool :=
  if current_hour ∈ TARGET_HOURS ∧ (current_hour : Int) ≠ last then
    ((current_hour : Int), true)
  else if (current_hour : Int) ≠ last then (-1, false)
  else (last, false)

/-- A run of consecutive poll ticks: final `last_detection_hour` and the
number of detection cycles fired. -/
def schedRun : Int → List Nat → Int × Nat
  | last, [] => (last, 0)
  | last, h :: hs =>
    let r := schedStep last h
    let rest := schedRun r.1 hs
    (rest.1, (if r.2 then 1 else 0) + rest.2)

/-- Once the stored hour equals the current hour, no further tick at that
hour fires. -/
theorem schedRun_const_fired (h : Nat) :
    ∀ n, schedRun (h : Int) (List.replicate n h) = ((h : Int), 0) := by
  intro n
  induction n with
  | zero => rfl
  | succ n ih =>
    rw [List.replicate_succ]
    simp only [schedRun]
    rw [show schedStep (h : Int) h = ((h : Int), false) from by simp [schedStep]]
    simp [ih]

/-- At a non-target hour the reset state persists and nothing fires. -/
theorem schedRun_nontarget (h : Nat) (hn : h ∉ TARGET_HOURS) :
    ∀ n, schedRun (-1) (List.replicate n h) = (-1, 0) := by
  intro n
  induction n with
  | zero => rfl
  | succ n ih =>
    rw [List.replicate_succ]
    simp only [schedRun]
    have hne : (h : Int) ≠ -1 := by omega
    rw [show schedStep (-1) h = (-1, false) from by simp [schedStep, hn, hne]]
    simp [ih]

/-- C4: on a poll tick with hour h, if h is a target hour different from the
stored hour then exactly one cycle runs and the stored hour becomes h;
otherwise if h differs from the stored hour it is reset to the -1 sentinel;
consequently at most one cycle fires across any consecutive run of ticks
whose hour stays h. -/
theorem scheduler_correct :
    (∀ (last : Int) (h : Nat), h ∈ TARGET_HOURS → (h : Int) ≠ last →
        schedStep last h = ((h : Int), true)) ∧
    (∀ (last : Int) (h : Nat), h ∉ TARGET_HOURS → (h : Int) ≠ last →
        schedStep last h = (-1, false)) ∧
    (∀ (last : Int) (h : Nat) (n : Nat), h ∈ TARGET_HOURS →
        (schedRun last (List.replicate n h)).2 ≤ 1) := by
  refine ⟨?_, ?_, ?_⟩
  · intro last h hmem hne
    simp [schedStep, hmem, hne]
  · intro last h hmem hne
    simp [schedStep, hmem, hne]
  · intro last h n _
    match n with
    | 0 => simp [schedRun]
    | Nat.succ n =>
      rw [List.replicate_succ]
      simp only [schedRun]
      by_cases he : (h : Int) = last
      · rw [show schedStep last h = (last, false) from by simp [schedStep, he]]
        simp [← he, schedRun_const_fired h n]
      · by_cases hmem : h ∈ TARGET_HOURS
        · rw [show schedStep last h = ((h : Int), true) from by simp [schedStep, hmem, he]]
          simp [schedRun_const_fired h n]
        · rw [show schedStep last h = (-1, false) from by simp [schedStep, hmem, he]]
          simp [schedRun_nontarget h hmem n]

/-- Witness for C4 at hour 9 from the initial -1 state over five ticks. -/
theorem scheduler_correct_witness :
    9 ∈ TARGET_HOURS ∧ ((9 : Nat) : Int) ≠ -1 ∧ schedStep (-1) 9 = (9, true) ∧
    (schedRun (-1) (List.replicate 5 9)).2 ≤ 1 :=
  ⟨by decide, by decide, scheduler_correct.1 (-1) 9 (by decide) (by decide),
    scheduler_correct.2.2 (-1) 9 5 (by decide)⟩

/-! ## JSON values and the oneM2M GET helper (`get_latest_cin_json`,
source lines 108-150, claims C7 and C10)

A parsed JSON value (the result of `requests.Response.json()` or of
`json.loads`) is modelled by `JVal`.  The network call is modelled by an
`HttpGetResult` input: a response with a status code and an optional parsed
body (`none` when the body is not valid JSON, in which case `r.json()`
raises and the generic handler returns `None`), or a timeout, or another
transport error.  `json.loads` on a string is modelled by an oracle
`parse : String → Option JVal` (`none` = `json.JSONDecodeError`). -/

/-- Model of a parsed JSON value. -/
inductive JVal where
  | null : JVal
  | jbool : Bool → JVal
  | jnum : Int → JVal
  | jstr : String → JVal
  | jarr : List JVal → JVal
  | jobj : List (String × JVal) → JVal

/-- Python truthiness of a JSON value (`if not json_content`). -/
def jTruthy : JVal → Bool
  | .null => false
  | .jbool b => b
  | .jnum n => n != 0
  | .jstr s => s != ""
  | .jarr xs => !xs.isEmpty
  | .jobj fs => !fs.isEmpty

/-- Model of Python `dict.get(k)` on a JSON object's field list. -/
def jGet (fs : List (String × JVal)) (k : String) : Option JVal :=
  match fs.find? (fun p => p.1 == k) with
  | some p => some p.2
  | none => none

/-- Outcome of `requests.get` as observed by `get_latest_cin_json`. -/
inductive HttpGetResult where
  | resp : Nat → Option JVal → HttpGetResult
  | timeout : HttpGetResult
  | netError : HttpGetResult

/-- Embedding of `get_latest_cin_json`: on HTTP 200 take
`r.json().get("m2m:cin", {}).get("con")`; a falsy content is an error; a
dict content is returned as is; a string content is passed to `json.loads`;
any other content type makes `json.loads` raise `TypeError`, caught by the
generic handler; 403, 404, any other non-200 status, a timeout and any
other exception all return `None`. -/
def get_latest_cin_json (parse : String → Option JVal) : HttpGetResult → Option JVal
  | .timeout => none
  | .netError => none
  | .resp status body =>
    if status = 200 then
      match body with
      | none => none
      | some (.jobj fields) =>
        match (jGet fields "m2m:cin").getD (.jobj []) with
        | .jobj cinFields =>
          match jGet cinFields "con" with
          | none => none
          | some con =>
            if jTruthy con then
              match con with
              | .jobj cf => some (.jobj cf)
              | .jstr s => parse s
              | _ => none
            else none
        | _ => none
      | some _ => none
    else none

/-- Evaluation of `get_latest_cin_json` on a 200 response with an object
body, in terms of the two nested field lookups. -/
theorem get_latest_200 (parse : String → Option JVal) (fields : List (String × JVal)) :
    get_latest_cin_json parse (.resp 200 (some (.jobj fields))) =
      (match (jGet fields "m2m:cin").getD (.jobj []) with
        | .jobj cinFields =>
          (match jGet cinFields "con" with
            | none => none
            | some con =>
              if jTruthy con then
                match con with
                | .jobj cf => some (.jobj cf)
                | .jstr s => parse s
                | _ => none
              else none)
        | _ => none) := by
  rw [get_latest_cin_json, if_pos rfl]

/-- C7: the config read returns a payload exactly when the status is 200 and
the nested content is present, truthy and well-formed; a structured content
value is returned as is and a JSON-encoded string is parsed, normalizing
both representations to the same structured form; every non-200 status
(403, 404 and others), a timeout, a transport error and malformed content
yield `None`. -/
theorem get_latest_cin_json_correct :
    (∀ (parse : String → Option JVal) (status : Nat) (body : Option JVal),
        status ≠ 200 → get_latest_cin_json parse (.resp status body) = none) ∧
    (∀ parse : String → Option JVal,
        get_latest_cin_json parse .timeout = none ∧
        get_latest_cin_json parse .netError = none) ∧
    (∀ (parse : String → Option JVal) (fields cinFields : List (String × JVal))
        (cf : List (String × JVal)),
        jGet fields "m2m:cin" = some (.jobj cinFields) →
        jGet cinFields "con" = some (.jobj cf) →
        cf ≠ [] →
        get_latest_cin_json parse (.resp 200 (some (.jobj fields))) = some (.jobj cf)) ∧
    (∀ (parse : String → Option JVal) (fields cinFields : List (String × JVal)) (s : String),
        jGet fields "m2m:cin" = some (.jobj cinFields) →
        jGet cinFields "con" = some (.jstr s) →
        s ≠ "" →
        get_latest_cin_json parse (.resp 200 (some (.jobj fields))) = parse s) ∧
    (∀ (parse : String → Option JVal) (r : HttpGetResult) (v : JVal),
        get_latest_cin_json parse r = some v →
        ∃ (fields cinFields : List (String × JVal)) (con : JVal),
          r = .resp 200 (some (.jobj fields)) ∧
          (jGet fields "m2m:cin").getD (.jobj []) = .jobj cinFields ∧
          jGet cinFields "con" = some con ∧
          jTruthy con = true ∧
          ((con = v ∧ ∃ cf, v = JVal.jobj cf) ∨
            (∃ s, con = JVal.jstr s ∧ parse s = some v))) := by
  refine ⟨?_, ?_, ?_, ?_, ?_⟩
  · intro parse status body hne
    simp [get_latest_cin_json, hne]
  · intro parse
    exact ⟨rfl, rfl⟩
  · intro parse fields cinFields cf h1 h2 hne
    have ht : jTruthy (.jobj cf) = true := by
      simp [jTruthy, List.isEmpty_iff, hne]
    simp [get_latest_cin_json, h1, h2, ht]
  · intro parse fields cinFields s h1 h2 hne
    have ht : jTruthy (.jstr s) = true := by
      simp [jTruthy, hne]
    simp [get_latest_cin_json, h1, h2, ht]
  · intro parse r v h
    match r with
    | .timeout => exact absurd h (by simp [get_latest_cin_json])
    | .netError => exact absurd h (by simp [get_latest_cin_json])
    | .resp status body =>
      by_cases hs : status = 200
      · subst hs
        match body with
        | none => exact absurd h (by simp [get_latest_cin_json])
        | some (.jobj fields) =>
          refine ⟨fields, ?_⟩
          rw [get_latest_200] at h
          split at h
          · next cinFields hcin =>
            refine ⟨cinFields, ?_⟩
            split at h
            · exact absurd h (by simp)
            · next con hcon =>
              split at h
              · next ht =>
                refine ⟨con, rfl, hcin, hcon, ht, ?_⟩
                split at h
                · next cf =>
                  injection h with hv
                  exact Or.inl ⟨hv, cf, hv.symm⟩
                · next s => exact Or.inr ⟨s, rfl, h⟩
                · exact absurd h (by simp)
              · exact absurd h (by simp)
          · exact absurd h (by simp)
        | some .null => exact absurd h (by simp [get_latest_cin_json])
        | some (.jbool b) => exact absurd h (by simp [get_latest_cin_json])
        | some (.jnum n) => exact absurd h (by simp [get_latest_cin_json])
        | some (.jstr s) => exact absurd h (by simp [get_latest_cin_json])
        | some (.jarr xs) => exact absurd h (by simp [get_latest_cin_json])
      · exact absurd h (by simp [get_latest_cin_json, hs])

/-- Witness for C7: a concrete 200 response whose "m2m:cin"/"con" content is
a structured object is returned as that object. -/
theorem get_latest_cin_json_correct_witness :
    jGet [("m2m:cin", JVal.jobj [("con", JVal.jobj [("modelID", JVal.jstr "/models")])])]
        "m2m:cin" = some (JVal.jobj [("con", JVal.jobj [("modelID", JVal.jstr "/models")])]) ∧
    get_latest_cin_json (fun _ => none)
        (.resp 200 (some (.jobj
          [("m2m:cin", JVal.jobj [("con", JVal.jobj [("modelID", JVal.jstr "/models")])])])))
      = some (JVal.jobj [("modelID", JVal.jstr "/models")]) :=
  ⟨rfl, get_latest_cin_json_correct.2.2.1 (fun _ => none) _ _ _ rfl rfl (by simp)⟩

/-- C10: on an HTTP 200 response whose content field is present but falsy
(empty string, empty object, JSON null, or any other falsy value), the
config read returns `None` rather than an empty payload, exactly as for a
missing record. -/
theorem get_latest_cin_json_empty_con :
    jTruthy (JVal.jstr "") = false ∧ jTruthy (JVal.jobj []) = false ∧
    jTruthy JVal.null = false ∧
    ∀ (parse : String → Option JVal) (fields cinFields : List (String × JVal)) (con : JVal),
      jGet fields "m2m:cin" = some (.jobj cinFields) →
      jGet cinFields "con" = some con →
      jTruthy con = false →
      get_latest_cin_json parse (.resp 200 (some (.jobj fields))) = none :=
  ⟨rfl, rfl, rfl, fun parse fields cinFields con hcin hcon ht => by
    rw [get_latest_200, hcin]
    simp [hcon, ht]⟩

/-- Witness for C10: a 200 response whose "con" field holds the empty string
resolves to `None`. -/
theorem get_latest_cin_json_empty_con_witness :
    get_latest_cin_json (fun _ => none)
        (.resp 200 (some (.jobj [("m2m:cin", JVal.jobj [("con", JVal.jstr "")])])))
      = none :=
  get_latest_cin_json_empty_con.2.2.2 (fun _ => none) _ _ _ rfl rfl rfl

/-! ## Config resolution (`MiniFarmAI._load_config_from_cse`,
source lines 182-224, claim C3)

The four `get_latest_cin_json` calls (species deployment, health deployment,
species model, health model) are modelled by their outcomes, passed as four
`Option JVal` inputs.  Python `if not x` on such an outcome is `pyFalsyOpt`.
A `.get` on a non-dict value raises `AttributeError`, which the enclosing
`try` converts to `None`; this is the non-`jobj` fallthrough below.  The
f-string URL interpolation applies Python `str()`, modelled by `pyStrOptJ`. -/

/-- Python single-quote character, used by `repr` of strings. -/
def sq : String := String.singleton (Char.ofNat 39)

/-- Model of Python `repr` on a parsed JSON value. -/
def pyReprJ : JVal → String
  | .null => "None"
  | .jbool true => "True"
  | .jbool false => "False"
  | .jnum n => toString n
  | .jstr s => sq ++ s ++ sq
  | .jarr xs => "[" ++ String.intercalate ", " (xs.attach.map (fun x => pyReprJ x.1)) ++ "]"
  | .jobj fs => "\x7b" ++ String.intercalate ", "
      (fs.attach.map (fun p => sq ++ p.1.1 ++ sq ++ ": " ++ pyReprJ p.1.2)) ++ "\x7d"
decreasing_by
  · have := List.sizeOf_lt_of_mem x.2
    simp only [JVal.jarr.sizeOf_spec]
    omega
  · have h1 := List.sizeOf_lt_of_mem p.2
    have h2 : sizeOf p.1.2 < sizeOf p.1 := by
      obtain ⟨a, b⟩ := p.1
      simp only [Prod.mk.sizeOf_spec]
      omega
    simp only [JVal.jobj.sizeOf_spec]
    omega

/-- Model of Python `str` on a parsed JSON value. -/
def pyStrJ : JVal → String
  | .jstr s => s
  | v => pyReprJ v

/-- Model of Python `str` applied to a `dict.get` result (`None` included). -/
def pyStrOptJ : Option JVal → String
  | none => "None"
  | some v => pyStrJ v

/-- Python falsiness of a read outcome (`if not data`). -/
def pyFalsyOpt : Option JVal → Bool
  | none => true
  | some v => !jTruthy v

/-- The configured server base URL. -/
def TINYIOT_URL : String := "http://YOUR_SERVER_IP:3000"

/-- The `config` dict assembled by `_load_config_from_cse`. -/
structure CseConfig where
  model_species_path : Option JVal
  model_health_path : Option JVal
  output_species : Option JVal
  output_health : Option JVal
  url_species : String
  url_health : String

/-- Embedding of `_load_config_from_cse`, parameterised by the outcomes of
the four reads: species deployment, health deployment, species model and
health model.  Falsy deployment outcomes return `None` before the model
reads; a non-dict outcome raises at the first `.get` and the handler
returns `None`; falsy model outcomes return `None`; otherwise the config
dict is built from both tracks. -/
def load_config_from_cse (dsp dhp msp mhp : Option JVal) : Option CseConfig :=
  if pyFalsyOpt dsp then none
  else if pyFalsyOpt dhp then none
  else
    match dsp, dhp with
    | some (.jobj dspF), some (.jobj dhpF) =>
      if pyFalsyOpt msp || pyFalsyOpt mhp then none
      else
        match msp, mhp with
        | some (.jobj mspF), some (.jobj mhpF) =>
          some
            { model_species_path := jGet mspF "mlModelPath"
              model_health_path := jGet mhpF "mlModelPath"
              output_species := jGet dspF "outputResource"
              output_health := jGet dhpF "outputResource"
              url_species := TINYIOT_URL ++ pyStrOptJ (jGet dspF "outputResource")
              url_health := TINYIOT_URL ++ pyStrOptJ (jGet dhpF "outputResource") }
        | _, _ => none
    | _, _ => none

/-- C3: if any of the four reads fails, resolution returns no config (in
particular a health-track model read failure fails the resolution whatever
the species-track outcome), and a successful resolution is assembled from
all fields of both tracks — never a partial config. -/
theorem load_config_fails_closed :
    (∀ dsp dhp msp mhp : Option JVal,
        pyFalsyOpt dsp = true ∨ pyFalsyOpt dhp = true ∨
          pyFalsyOpt msp = true ∨ pyFalsyOpt mhp = true →
        load_config_from_cse dsp dhp msp mhp = none) ∧
    (∀ (dsp dhp msp mhp : Option JVal) (cfg : CseConfig),
        load_config_from_cse dsp dhp msp mhp = some cfg →
        ∃ dspF dhpF mspF mhpF : List (String × JVal),
          dsp = some (.jobj dspF) ∧ dhp = some (.jobj dhpF) ∧
          msp = some (.jobj mspF) ∧ mhp = some (.jobj mhpF) ∧
          cfg = { model_species_path := jGet mspF "mlModelPath"
                  model_health_path := jGet mhpF "mlModelPath"
                  output_species := jGet dspF "outputResource"
                  output_health := jGet dhpF "outputResource"
                  url_species := TINYIOT_URL ++ pyStrOptJ (jGet dspF "outputResource")
                  url_health := TINYIOT_URL ++ pyStrOptJ (jGet dhpF "outputResource") }) := by
  constructor
  · intro dsp dhp msp mhp hfail
    unfold load_config_from_cse
    by_cases h1 : pyFalsyOpt dsp = true
    · simp [h1]
    · rw [if_neg (by simp [h1])]
      by_cases h2 : pyFalsyOpt dhp = true
      · simp [h2]
      · rw [if_neg (by simp [h2])]
        rcases hfail with h | h | h | h
        · exact absurd h h1
        · exact absurd h h2
        · split
          · rw [if_pos (by simp [h])]
          · rfl
        · split
          · rw [if_pos (by simp [h])]
          · rfl
  · intro dsp dhp msp mhp cfg h
    unfold load_config_from_cse at h
    by_cases h1 : pyFalsyOpt dsp = true
    · rw [if_pos h1] at h; exact absurd h (by simp)
    · rw [if_neg h1] at h
      by_cases h2 : pyFalsyOpt dhp = true
      · rw [if_pos h2] at h; exact absurd h (by simp)
      · rw [if_neg h2] at h
        split at h
        · next dspF dhpF =>
          by_cases h3 : (pyFalsyOpt msp || pyFalsyOpt mhp) = true
          · rw [if_pos h3] at h; exact absurd h (by simp)
          · rw [if_neg h3] at h
            split at h
            · next mspF mhpF =>
              injection h with h
              exact ⟨dspF, dhpF, mspF, mhpF, rfl, rfl, rfl, rfl, h.symm⟩
            · exact absurd h (by simp)
        · exact absurd h (by simp)

/-- Witness for C3: a failed health-track model read fails resolution even
though the other three reads succeeded with structured data. -/
theorem load_config_fails_closed_witness :
    pyFalsyOpt (none : Option JVal) = true ∧
    load_config_from_cse
        (some (.jobj [("modelID", JVal.jstr "/TinyIoT/modelRepo/mlModel-species")]))
        (some (.jobj [("modelID", JVal.jstr "/TinyIoT/modelRepo/mlModel-health")]))
        (some (.jobj [("mlModelPath", JVal.jstr "/home/seslab/minifarm/best.pt")]))
        none
      = none :=
  ⟨rfl, load_config_fails_closed.1 _ _ _ _ (Or.inr (Or.inr (Or.inr rfl)))⟩

/-! ## Result upload (`MiniFarmAI._send_to_tinyiot`, source lines 351-404,
claims C1 and C2)

For each non-empty map the code serialises `{"timestamp": ..., "data": ...}`
with `json.dumps` and POSTs `{"m2m:cin": {"con": "data", "lbl": [json_string]}}`
to the track's output URL.  The POST outcomes are an oracle
`respond : PostAttempt → PostOutcome`; the embedding returns the
`all_success` flag together with the list of attempted POSTs. -/

/-- JSON escaping of one character as done by `json.dumps` (quote and
backslash; the detector's labels and timestamps contain no control or
non-ASCII characters). -/
def jsonEscapeChar (c : Char) : String :=
  if c = '"' then "\\\""
  else if c = '\\' then "\\\\"
  else String.singleton c

/-- JSON escaping of a string. -/
def jsonEscape (s : String) : String :=
  String.join (s.data.map jsonEscapeChar)

/-- Model of Python `json.dumps` with its default separators. -/
def dumps : JVal → String
  | .null => "null"
  | .jbool true => "true"
  | .jbool false => "false"
  | .jnum n => toString n
  | .jstr s => "\"" ++ jsonEscape s ++ "\""
  | .jarr xs => "[" ++ String.intercalate ", " (xs.attach.map (fun x => dumps x.1)) ++ "]"
  | .jobj fs => "\x7b" ++ String.intercalate ", "
      (fs.attach.map (fun p => "\"" ++ jsonEscape p.1.1 ++ "\": " ++ dumps p.1.2)) ++ "\x7d"
decreasing_by
  · have := List.sizeOf_lt_of_mem x.2
    simp only [JVal.jarr.sizeOf_spec]
    omega
  · have h1 := List.sizeOf_lt_of_mem p.2
    have h2 : sizeOf p.1.2 < sizeOf p.1 := by
      obtain ⟨a, b⟩ := p.1
      simp only [Prod.mk.sizeOf_spec]
      omega
    simp only [JVal.jobj.sizeOf_spec]
    omega

/-- A Python dict of strings (species or health map) as a JSON object. -/
def mapToJObj (m : List (String × String)) : JVal :=
  .jobj (m.map (fun p => (p.1, .jstr p.2)))

/-- The UploadEnvelope `{"timestamp": timestamp, "data": data}`. -/
def envelopeJson (timestamp : String) (data : List (String × String)) : JVal :=
  .jobj [("timestamp", .jstr timestamp), ("data", mapToJObj data)]

/-- One POST issued by the uploader: target URL and `m2m:cin` body. -/
structure PostAttempt where
  url : String
  payload : JVal

/-- Outcome of one POST: a status code, or a raised exception. -/
inductive PostOutcome where
  | status : Nat → PostOutcome
  | exn : PostOutcome

/-- Whether the uploader counts an outcome as success (`r.status_code == 201`;
an exception is a failure). -/
def outcomeOk : PostOutcome → Bool
  | .status n => n == 201
  | .exn => false

/-- The request body built for one track:
`{"m2m:cin": {"con": "data", "lbl": [json.dumps(envelope)]}}`. -/
def uploadPayload (timestamp : String) (data : List (String × String)) : JVal :=
  .jobj [("m2m:cin", .jobj
    [("con", .jstr "data"),
     ("lbl", .jarr [.jstr (dumps (envelopeJson timestamp data))])])]

/-- Embedding of `_send_to_tinyiot`: each non-empty map is POSTed to its
track's URL; `all_success` starts true and drops to false on any outcome
other than status 201; the result is the flag and the attempted POSTs in
order (species first, then health). -/
def send_to_tinyiot (url_species url_health timestamp : String)
    (species_data health_data : List (String × String))
    (respond : PostAttempt → PostOutcome) : Bool × List PostAttempt :=
  let sRes :=
    if species_data.isEmpty then (true, ([] : List PostAttempt))
    else
      let att : PostAttempt := ⟨url_species, uploadPayload timestamp species_data⟩
      (outcomeOk (respond att), [att])
  let hRes :=
    if health_data.isEmpty then (true, ([] : List PostAttempt))
    else
      let att : PostAttempt := ⟨url_health, uploadPayload timestamp health_data⟩
      (outcomeOk (respond att), [att])
  (sRes.1 && hRes.1, sRes.2 ++ hRes.2)

/-- The oneM2M server creates one content record per POST that returned 201. -/
def createdAttempts (respond : PostAttempt → PostOutcome)
    (attempts : List PostAttempt) : List PostAttempt :=
  attempts.filter (fun a => outcomeOk (respond a))

/-- Success means exactly status 201. -/
theorem outcomeOk_iff (o : PostOutcome) : outcomeOk o = true ↔ o = .status 201 := by
  cases o with
  | status n => simp [outcomeOk]
  | exn => simp [outcomeOk]

/-- The attempted POSTs: one per non-empty map, species then health. -/
theorem send_attempts_eq (us uh ts : String) (sd hd : List (String × String))
    (respond : PostAttempt → PostOutcome) :
    (send_to_tinyiot us uh ts sd hd respond).2 =
      (if sd.isEmpty then [] else [⟨us, uploadPayload ts sd⟩]) ++
      (if hd.isEmpty then [] else [⟨uh, uploadPayload ts hd⟩]) := by
  simp only [send_to_tinyiot]
  split_ifs <;> rfl

/-- The success flag is the conjunction over the attempted tracks. -/
theorem send_result_eq (us uh ts : String) (sd hd : List (String × String))
    (respond : PostAttempt → PostOutcome) :
    (send_to_tinyiot us uh ts sd hd respond).1 =
      ((sd.isEmpty || outcomeOk (respond ⟨us, uploadPayload ts sd⟩)) &&
       (hd.isEmpty || outcomeOk (respond ⟨uh, uploadPayload ts hd⟩))) := by
  simp only [send_to_tinyiot]
  cases h1 : sd.isEmpty <;> cases h2 : hd.isEmpty <;> simp [h1, h2]

/-- C2: `upload` returns true iff every attempted (non-empty) track's POST
returned 201; an empty map is skipped without a POST and does not affect the
result; the health track is attempted regardless of the species outcome (no
rollback); with species returning 201 and health returning 500 the call
returns false and only the species record is created. -/
theorem upload_tracks_independent :
    ∀ (us uh ts : String) (sd hd : List (String × String))
      (respond : PostAttempt → PostOutcome),
      ((send_to_tinyiot us uh ts sd hd respond).1 = true ↔
        ∀ a ∈ (send_to_tinyiot us uh ts sd hd respond).2, respond a = .status 201) ∧
      ((send_to_tinyiot us uh ts sd hd respond).2 =
        (if sd.isEmpty then [] else [⟨us, uploadPayload ts sd⟩]) ++
        (if hd.isEmpty then [] else [⟨uh, uploadPayload ts hd⟩])) ∧
      (sd ≠ [] → hd ≠ [] →
        respond ⟨us, uploadPayload ts sd⟩ = .status 201 →
        respond ⟨uh, uploadPayload ts hd⟩ = .status 500 →
        (send_to_tinyiot us uh ts sd hd respond).1 = false ∧
        createdAttempts respond (send_to_tinyiot us uh ts sd hd respond).2 =
          [⟨us, uploadPayload ts sd⟩]) := by
  intro us uh ts sd hd respond
  refine ⟨?_, send_attempts_eq us uh ts sd hd respond, ?_⟩
  · rw [send_result_eq, send_attempts_eq]
    by_cases h1 : sd.isEmpty <;> by_cases h2 : hd.isEmpty <;>
      simp [h1, h2, outcomeOk_iff]
  · intro hsd hhd hs hh
    have h1 : sd.isEmpty = false := by simpa using hsd
    have h2 : hd.isEmpty = false := by simpa using hhd
    constructor
    · rw [send_result_eq]
      simp [h1, h2, hs, hh, outcomeOk]
    · rw [send_attempts_eq]
      simp [h1, h2, createdAttempts, hs, hh, outcomeOk]

/-- Witness for C2: species POST returns 201, health POST returns 500; the
upload reports failure and only the species record exists. -/
theorem upload_tracks_independent_witness :
    (send_to_tinyiot "su" "hu" "t" [("0", "basil")] [("0", "basil_healthy")]
        (fun a => if a.url = "su" then .status 201 else .status 500)).1 = false ∧
    createdAttempts (fun a => if a.url = "su" then .status 201 else .status 500)
        (send_to_tinyiot "su" "hu" "t" [("0", "basil")] [("0", "basil_healthy")]
          (fun a => if a.url = "su" then .status 201 else .status 500)).2 =
      [⟨"su", uploadPayload "t" [("0", "basil")]⟩] :=
  (upload_tracks_independent "su" "hu" "t" _ _ _).2.2
    (by simp) (by simp) (by simp) (by simp)

/-- Helper reading the `con` field of a request body. -/
def conOfPayload (p : JVal) : Option JVal :=
  match p with
  | .jobj fs =>
    match jGet fs "m2m:cin" with
    | some (.jobj cfs) => jGet cfs "con"
    | _ => none
  | _ => none

/-- Helper reading the `lbl` field of a request body. -/
def lblOfPayload (p : JVal) : Option JVal :=
  match p with
  | .jobj fs =>
    match jGet fs "m2m:cin" with
    | some (.jobj cfs) => jGet cfs "lbl"
    | _ => none
  | _ => none

/-- C1 counterexample: for a concrete non-empty species map the POSTed body
has `con` equal to the constant string "data", which is not the serialized
UploadEnvelope (that string starts with a brace, not with 'd'). -/
theorem upload_con_is_constant_data :
    (send_to_tinyiot "su" "hu" "2024-01-01 00:00:00" [("0", "basil")] []
        (fun _ => .status 201)).2 =
      [⟨"su", uploadPayload "2024-01-01 00:00:00" [("0", "basil")]⟩] ∧
    conOfPayload (uploadPayload "2024-01-01 00:00:00" [("0", "basil")]) =
      some (.jstr "data") ∧
    dumps (envelopeJson "2024-01-01 00:00:00" [("0", "basil")]) ≠ "data" := by
  refine ⟨rfl, rfl, ?_⟩
  intro h
  rw [envelopeJson, dumps] at h
  have hd := congrArg String.data h
  rw [String.data_append] at hd
  simp at hd

/-- C1 amended: every attempted POST carries the serialized UploadEnvelope
inside the label field `lbl` (as a one-element list), while the content
field `con` carries the constant string "data". -/
theorem upload_envelope_in_lbl :
    ∀ (us uh ts : String) (sd hd : List (String × String))
      (respond : PostAttempt → PostOutcome),
      (sd ≠ [] →
        (⟨us, uploadPayload ts sd⟩ : PostAttempt) ∈
          (send_to_tinyiot us uh ts sd hd respond).2) ∧
      (hd ≠ [] →
        (⟨uh, uploadPayload ts hd⟩ : PostAttempt) ∈
          (send_to_tinyiot us uh ts sd hd respond).2) ∧
      (∀ data : List (String × String),
        conOfPayload (uploadPayload ts data) = some (.jstr "data") ∧
        lblOfPayload (uploadPayload ts data) =
          some (.jarr [.jstr (dumps (envelopeJson ts data))])) := by
  intro us uh ts sd hd respond
  refine ⟨?_, ?_, fun data => ⟨rfl, rfl⟩⟩
  · intro hsd
    rw [send_attempts_eq]
    have h1 : sd.isEmpty = false := by simpa using hsd
    simp [h1]
  · intro hhd
    rw [send_attempts_eq]
    have h2 : hd.isEmpty = false := by simpa using hhd
    simp [h2]

/-- Witness for C1 (amended) at a concrete non-empty species map. -/
theorem upload_envelope_in_lbl_witness :
    (⟨"su", uploadPayload "t" [("0", "basil")]⟩ : PostAttempt) ∈
      (send_to_tinyiot "su" "hu" "t" [("0", "basil")] []
        (fun _ => .status 201)).2 :=
  (upload_envelope_in_lbl "su" "hu" "t" [("0", "basil")] [] (fun _ => .status 201)).1
    (by simp)

/-! ## Frame broadcast (`StreamingOutput.write`, source lines 51-54, and the
`/stream.mjpg` consumer loop of `StreamingHandler.do_GET`, source lines
89-98, claim C8)

The single-slot buffer and its viewers form a transition system.
`published` counts the frames written so far; the buffer slot holds the
`published`-th frame (0 = the initial `None`, before any frame exists).
Each viewer's streaming loop is: under the lock, `condition.wait()`, then
read the slot; `StreamingOutput.write` replaces the slot and wakes every
waiter.  A viewer state records the publish count when its loop started
(`connectAt`), the publish count when its current wait began
(`waitingSince`), and the frame indices it has read so far.  A `wake` step
is enabled only when a publish happened after the wait began
(`waitingSince < published`); resuming reads the slot's current frame and
re-enters the wait.  This model has no spurious wakeups, matching CPython's
`Condition.wait`. -/

/-- One `/stream.mjpg` consumer's state. -/
structure ViewerState where
  connectAt : Nat
  waitingSince : Nat
  received : List Nat
  deriving DecidableEq

/-- The buffer plus all connected viewers. -/
structure SysState where
  published : Nat
  viewers : List ViewerState
  deriving DecidableEq

/-- Interleaved steps of the producer (`write`), connection handling, and
the consumer loops. -/
inductive StreamStep : SysState → SysState → Prop
  | publish (p : Nat) (vs : List ViewerState) :
      StreamStep ⟨p, vs⟩ ⟨p + 1, vs⟩
  | connect (p : Nat) (vs : List ViewerState) :
      StreamStep ⟨p, vs⟩ ⟨p, vs ++ [⟨p, p, []⟩]⟩
  | wake (p : Nat) (vs1 vs2 : List ViewerState) (c w : Nat) (r : List Nat)
      (hw : w < p) :
      StreamStep ⟨p, vs1 ++ ⟨c, w, r⟩ :: vs2⟩ ⟨p, vs1 ++ ⟨c, p, r ++ [p]⟩ :: vs2⟩
  | disconnect (p : Nat) (vs1 vs2 : List ViewerState) (v : ViewerState) :
      StreamStep ⟨p, vs1 ++ v :: vs2⟩ ⟨p, vs1 ++ vs2⟩

/-- States reachable from the initial empty buffer with no viewers. -/
inductive StreamReachable : SysState → Prop
  | init : StreamReachable ⟨0, []⟩
  | step {s s' : SysState} : StreamReachable s → StreamStep s s' → StreamReachable s'

/-- Per-viewer invariant: the current wait began no earlier than the
connection and no later than the newest publish, and every received frame
was published after the connection and no later than the current wait
began. -/
def ViewerInv (p : Nat) (v : ViewerState) : Prop :=
  v.connectAt ≤ v.waitingSince ∧ v.waitingSince ≤ p ∧
    ∀ f ∈ v.received, v.connectAt < f ∧ f ≤ v.waitingSince

/-- The per-viewer invariant holds in every reachable state. -/
theorem viewer_inv_reachable (s : SysState) (h : StreamReachable s) :
    ∀ v ∈ s.viewers, ViewerInv s.published v := by
  induction h with
  | init => intro v hv; simp at hv
  | step hr hstep ih =>
    cases hstep with
    | publish p vs =>
      intro v hv
      obtain ⟨i1, i2, i3⟩ := ih v hv
      exact ⟨i1, Nat.le_succ_of_le i2, i3⟩
    | connect p vs =>
      intro v hv
      rcases List.mem_append.mp hv with hv | hv
      · exact ih v hv
      · rw [List.mem_singleton.mp hv]
        exact ⟨le_refl p, le_refl p, by simp⟩
    | wake p vs1 vs2 c w r hw =>
      intro v hv
      rcases List.mem_append.mp hv with hv | hv
      · exact ih v (List.mem_append.mpr (Or.inl hv))
      · rcases List.mem_cons.mp hv with rfl | hv
        · obtain ⟨i1, i2, i3⟩ :=
            ih ⟨c, w, r⟩ (List.mem_append.mpr (Or.inr (List.mem_cons_self _ _)))
          refine ⟨le_of_lt (lt_of_le_of_lt i1 hw), le_refl p, ?_⟩
          intro f hf
          rcases List.mem_append.mp hf with hf | hf
          · obtain ⟨j1, j2⟩ := i3 f hf
            exact ⟨j1, le_trans j2 (le_of_lt hw)⟩
          · rw [List.mem_singleton.mp hf]
            exact ⟨lt_of_le_of_lt i1 hw, le_refl p⟩
        · exact ih v (List.mem_append.mpr (Or.inr (List.mem_cons_of_mem _ hv)))
    | disconnect p vs1 vs2 w =>
      intro v hv
      rcases List.mem_append.mp hv with hv | hv
      · exact ih v (List.mem_append.mpr (Or.inl hv))
      · exact ih v (List.mem_append.mpr (Or.inr (List.mem_cons_of_mem _ hv)))

/-- C8: in every reachable state, every frame a viewer has received was
published strictly after the viewer's streaming loop started.  With
`connectAt = N` (the viewer connected after frame N was published), every
received frame is N+1 or later — never frame N or older; with
`connectAt = 0` (connected before any frame existed), every received frame
index is at least 1, i.e. an actual frame published after connecting, never
the empty initial slot. -/
theorem stream_fresh_frames (s : SysState) (h : StreamReachable s) :
    ∀ v ∈ s.viewers, ∀ f ∈ v.received,
      v.connectAt < f ∧ 1 ≤ f ∧ f ≤ s.published := by
  intro v hv f hf
  obtain ⟨i1, i2, i3⟩ := viewer_inv_reachable s h v hv
  obtain ⟨j1, j2⟩ := i3 f hf
  exact ⟨j1, Nat.one_le_iff_ne_zero.mpr (Nat.pos_iff_ne_zero.mp (lt_of_le_of_lt (Nat.zero_le _) j1)), le_trans j2 i2⟩

/-- Witness for C8: a viewer connects to the empty buffer, one frame is
published, the viewer wakes and reads it; the received frame 1 is fresh. -/
theorem stream_fresh_frames_witness :
    StreamReachable ⟨1, [⟨0, 1, [1]⟩]⟩ ∧
    (0 < 1 ∧ 1 ≤ 1 ∧ 1 ≤ (1 : Nat)) := by
  have hreach : StreamReachable ⟨1, [⟨0, 1, [1]⟩]⟩ := by
    have h1 : StreamReachable ⟨0, [⟨0, 0, []⟩]⟩ :=
      .step .init (show StreamStep ⟨0, []⟩ ⟨0, [] ++ [⟨0, 0, []⟩]⟩ from .connect 0 [])
    have h2 : StreamReachable ⟨1, [⟨0, 0, []⟩]⟩ := .step h1 (.publish 0 _)
    exact .step h2
      (show StreamStep ⟨1, [] ++ ⟨0, 0, []⟩ :: []⟩ ⟨1, [] ++ ⟨0, 1, [] ++ [1]⟩ :: []⟩ from
        .wake 1 [] [] 0 0 [] (by decide))
  exact ⟨hreach,
    stream_fresh_frames ⟨1, [⟨0, 1, [1]⟩]⟩ hreach ⟨0, 1, [1]⟩ (by simp) 1 (by simp)⟩

end MiniFarm
